import Mathlib

/-!
Shallow embedding of the core of the `Trading_bot` repository:

* `trading_bot/risk/risk_manager.py` — position sizing (`step_round`,
  `compute_volume`), which quantizes with Python `Decimal` rounding mode
  `ROUND_DOWN` (round towards zero) using exact decimal arithmetic;
* `trading_bot/strategy/distance_time.py` — the `DistanceTime` breakout
  signal generator over a `deque(maxlen = max(1, window_minutes))`;
* `trading_bot/exec/backtest_exec.py` — the `BacktestExec.run` replay loop
  (single-position state machine, equity curve, statistics aggregation).

Prices, equity and volumes are modelled as exact rationals `ℚ` (the spec
mandates exact decimal arithmetic for the sizing step; all claims under
check are about exact values).  Times are modelled as `ℕ`.
-/

namespace TradingBot

/-- Trade direction; the Python code uses the strings `"long"`/`"short"`. -/
inductive Side where
  | long : Side
  | short : Side
deriving DecidableEq

/-- `Candle` record from `trading_bot/types.py`. -/
structure Candle where
  time : ℕ
  «open» : ℚ
  high : ℚ
  low : ℚ
  close : ℚ
  volume : ℚ
deriving DecidableEq

/-- `Signal` record from `trading_bot/types.py`. -/
structure Signal where
  side : Side
  sl_price : ℚ
  tp_price : ℚ
deriving DecidableEq

/-- `Trade` record from `trading_bot/types.py`; `exit_time`/`exit_price`
are `None` until the trade closes. -/
structure Trade where
  entry_time : ℕ
  exit_time : Option ℕ
  side : Side
  entry_price : ℚ
  exit_price : Option ℚ
  volume : ℚ
  sl_price : ℚ
  tp_price : ℚ
deriving DecidableEq

/-- `Stats` record from `trading_bot/types.py`. -/
structure Stats where
  n_trades : ℕ
  win_rate : ℚ
  pnl : ℚ
  max_dd : ℚ
  expectancy : ℚ
deriving DecidableEq

/-! ## Risk manager (`trading_bot/risk/risk_manager.py`) -/

/-- Rounding a rational towards zero, the semantics of Python
`Decimal.to_integral_value(rounding=ROUND_DOWN)` (`ROUND_DOWN` is
documented as "round towards zero"). -/
def truncQ (q : ℚ) : ℤ := if 0 ≤ q then ⌊q⌋ else -⌊-q⌋

/-- `step_round(x, step)`: quantize `x` to an integral multiple of `step`
with `ROUND_DOWN` (towards zero), in exact arithmetic. -/
def step_round (x : ℚ) (step : ℚ) : ℚ := (truncQ (x / step) : ℚ) * step

/-- `compute_volume(equity, entry, sl, risk_pct, vol_min, vol_step, vol_max)`
from `trading_bot/risk/risk_manager.py`. -/
def compute_volume (equity entry sl risk_pct vol_min vol_step vol_max : ℚ) : ℚ :=
  let risk_amt := equity * (risk_pct / 100)
  let stop := |entry - sl|
  if stop = 0 then vol_min
  else max vol_min (min vol_max (step_round (risk_amt / stop) vol_step))

/-- Quantizing DOWN in the sense of the spec ("floor only — sized risk must
never exceed the configured bound"): floor to a multiple of the step. -/
def floor_step_round (x : ℚ) (step : ℚ) : ℚ := (⌊x / step⌋ : ℚ) * step

/-- The sizing rule as the spec words it (§4.2): floor-quantize the raw
volume to a multiple of the step, then clamp into `[vol_min, vol_max]`;
written alongside `compute_volume` to compare the two. -/
def compute_volume_spec (equity entry sl risk_pct vol_min vol_step vol_max : ℚ) : ℚ :=
  let risk_amt := equity * (risk_pct / 100)
  let stop := |entry - sl|
  if stop = 0 then vol_min
  else max vol_min (min vol_max (floor_step_round (risk_amt / stop) vol_step))

/-! ## Signal generator (`trading_bot/strategy/distance_time.py`) -/

/-- Configuration consumed by `DistanceTime.__init__` (from
`cfg.strategy`): window size in bars, distance threshold in pips,
stop-loss distance in pips, take-profit risk-reward multiple. -/
structure DTConfig where
  window_minutes : ℕ
  distance_pips : ℚ
  sl_pips : ℚ
  tp_rr : ℚ

/-- The deque capacity: `deque(maxlen=max(1, self.win))`. -/
def DTConfig.maxlen (cfg : DTConfig) : ℕ := max 1 cfg.window_minutes

/-- `_pip(digits)`: `0.01` when `digits ∈ {1, 2, 3}`, else `0.0001`. -/
def pip (digits : ℕ) : ℚ :=
  if digits = 1 ∨ digits = 2 ∨ digits = 3 then 1/100 else 1/10000

/-- Appending to a `deque` of capacity `maxlen`: the new element goes to
the right, the oldest elements are evicted from the left to keep the
length at most `maxlen`. -/
def pushWindow (maxlen : ℕ) (w : List Candle) (bar : Candle) : List Candle :=
  let w2 := w ++ [bar]
  w2.drop (w2.length - maxlen)

/-- `max(c.high for c in window)`; only called on a non-empty window. -/
def maxHigh : List Candle → ℚ
  | [] => 0
  | c :: cs => cs.foldl (fun m d => max m d.high) c.high

/-- `min(c.low for c in window)`; only called on a non-empty window. -/
def minLow : List Candle → ℚ
  | [] => 0
  | c :: cs => cs.foldl (fun m d => min m d.low) c.low

/-- `self.window[-1].close`; only used on a non-empty window. -/
def lastClose (w : List Candle) : ℚ := (w.getLast?).elim 0 Candle.close

/-- `DistanceTime.on_bar(bar, digits)`: push the bar into the window and,
once the window is full, emit a breakout signal.  Returns the updated
window together with the optional signal. -/
def on_bar (cfg : DTConfig) (w : List Candle) (bar : Candle) (digits : ℕ) :
    List Candle × Option Signal :=
  let w2 := pushWindow cfg.maxlen w bar
  if w2.length < cfg.maxlen then (w2, none)
  else
    let hi := maxHigh w2
    let lo := minLow w2
    let dist_pips := (hi - lo) / pip digits
    if dist_pips < cfg.distance_pips then (w2, none)
    else
      let lastc := lastClose w2
      let p := pip digits
      if lastc ≥ hi then
        (w2, some ⟨Side.long, lastc - cfg.sl_pips * p, lastc + cfg.sl_pips * cfg.tp_rr * p⟩)
      else if lastc ≤ lo then
        (w2, some ⟨Side.short, lastc + cfg.sl_pips * p, lastc - cfg.sl_pips * cfg.tp_rr * p⟩)
      else (w2, none)

/-- The stream of optional signals `DistanceTime` emits along a bar
sequence, threading the window (engine calls use `digits = 5`). -/
def signalsAux (cfg : DTConfig) (w : List Candle) : List Candle → List (Option Signal)
  | [] => []
  | b :: bs => (on_bar cfg w b 5).2 :: signalsAux cfg (on_bar cfg w b 5).1 bs

/-- Signals emitted from a fresh (empty-window) generator. -/
def signalsOf (cfg : DTConfig) (bars : List Candle) : List (Option Signal) :=
  signalsAux cfg [] bars

/-! ## Backtest engine (`trading_bot/exec/backtest_exec.py`) -/

/-- `VOL_MIN, VOL_STEP, VOL_MAX = 0.01, 0.01, 10.0`. -/
def VOL_MIN : ℚ := 1/100

/-- `VOL_MIN, VOL_STEP, VOL_MAX = 0.01, 0.01, 10.0`. -/
def VOL_STEP : ℚ := 1/100

/-- `VOL_MIN, VOL_STEP, VOL_MAX = 0.01, 0.01, 10.0`. -/
def VOL_MAX : ℚ := 10

/-- `hit_sl`: for a long, `bar.low <= sl_price`; for a short,
`bar.high >= sl_price`. -/
def hitSL (t : Trade) (bar : Candle) : Bool :=
  match t.side with
  | Side.long => decide (bar.low ≤ t.sl_price)
  | Side.short => decide (bar.high ≥ t.sl_price)

/-- `hit_tp`: for a long, `bar.high >= tp_price`; for a short,
`bar.low <= tp_price`. -/
def hitTP (t : Trade) (bar : Candle) : Bool :=
  match t.side with
  | Side.long => decide (bar.high ≥ t.tp_price)
  | Side.short => decide (bar.low ≤ t.tp_price)

/-- `sign = 1 if side == "long" else -1`. -/
def sideSign : Side → ℚ
  | Side.long => 1
  | Side.short => -1

/-- The mutable state of the `BacktestExec.run` loop: current equity, the
closed-trade list, the optional open trade, and the equity curve. -/
structure EngineState where
  equity : ℚ
  trades : List Trade
  open_trade : Option Trade
  equity_curve : List (ℕ × ℚ)
deriving DecidableEq

/-- Loop state on entry: `equity = 10000.0`, no trades, no open position,
empty equity curve. -/
def initState : EngineState := ⟨10000, [], none, []⟩

/-- The `Trade` object built when a signal is accepted: entry at the
current bar's `open`, volume from `compute_volume` at the current equity
with the module constants, SL/TP copied from the signal. -/
def openTradeOf (risk_pct : ℚ) (st : EngineState) (bar : Candle) (s : Signal) : Trade :=
  ⟨bar.time, none, s.side, bar.«open»,
   none, compute_volume st.equity bar.«open» s.sl_price risk_pct VOL_MIN VOL_STEP VOL_MAX,
   s.sl_price, s.tp_price⟩

/-- One iteration of the `for bar in feed` loop of `BacktestExec.run`,
given the signal the strategy produced for this bar.  Mirrors the Python
control flow: `if sig and not open_trade` opens a trade and `continue`s
(appending an equity point first); otherwise, with a position open, the
touch conditions are tested and the trade is closed at the triggered
level with stop-loss priority; in every path exactly one equity point
`(bar.time, equity)` is appended, after any close. -/
def stepBar (risk_pct : ℚ) (st : EngineState) (bar : Candle) (sig : Option Signal) :
    EngineState :=
  match sig, st.open_trade with
  | some s, none =>
      { st with open_trade := some (openTradeOf risk_pct st bar s),
                equity_curve := st.equity_curve ++ [(bar.time, st.equity)] }
  | _, _ =>
      match st.open_trade with
      | some t =>
          if hitSL t bar || hitTP t bar then
            let exit_price := if hitSL t bar then t.sl_price else t.tp_price
            let pnl_t := (exit_price - t.entry_price) * sideSign t.side * t.volume * 100000
            { equity := st.equity + pnl_t,
              trades := st.trades ++
                [{ t with exit_time := some bar.time, exit_price := some exit_price }],
              open_trade := none,
              equity_curve := st.equity_curve ++ [(bar.time, st.equity + pnl_t)] }
          else
            { st with equity_curve := st.equity_curve ++ [(bar.time, st.equity)] }
      | none => { st with equity_curve := st.equity_curve ++ [(bar.time, st.equity)] }

/-- The replay loop threading the strategy window and the engine state. -/
def runAux (risk_pct : ℚ) (cfg : DTConfig) :
    List Candle → List Candle × EngineState → List Candle × EngineState
  | [], ws => ws
  | bar :: rest, (w, st) =>
      runAux risk_pct cfg rest
        ((on_bar cfg w bar 5).1, stepBar risk_pct st bar (on_bar cfg w bar 5).2)

/-- The engine state after replaying `bars` from a fresh strategy and a
fresh engine. -/
def runState (risk_pct : ℚ) (cfg : DTConfig) (bars : List Candle) : EngineState :=
  (runAux risk_pct cfg bars ([], initState)).2

/-- The per-trade realized pnl recomputed in the final aggregation pass:
`(exit_price - entry_price) * sign * volume * 100000` (closed trades
always carry an exit price). -/
def tradePnl (t : Trade) : ℚ :=
  (t.exit_price.getD 0 - t.entry_price) * sideSign t.side * t.volume * 100000

/-- The max-drawdown loop of `BacktestExec.run`: peak seeded at `-1e18`,
running `dd = peak - eq` maximised over the curve. -/
def maxDrawdown (eqs : List ℚ) : ℚ :=
  (eqs.foldl
    (fun pm eq =>
      let peak := if eq > pm.1 then eq else pm.1
      let dd := peak - eq
      (peak, if dd > pm.2 then dd else pm.2))
    ((-1000000000000000000 : ℚ), 0)).2

/-- The statistics block at the end of `BacktestExec.run`: total pnl and
win count over the closed trades, guarded win rate and expectancy, max
drawdown over the equity-curve values. -/
def computeStats (trades : List Trade) (curve : List (ℕ × ℚ)) : Stats :=
  let pnl := (trades.map tradePnl).sum
  let wins := (trades.filter (fun t => decide (0 < tradePnl t))).length
  let win_rate : ℚ := if trades.length = 0 then 0 else (wins : ℚ) / (trades.length : ℚ)
  let max_dd := maxDrawdown (curve.map Prod.snd)
  let expectancy : ℚ := if trades.length = 0 then 0 else pnl / (trades.length : ℚ)
  ⟨trades.length, win_rate, pnl, max_dd, expectancy⟩

/-- `BacktestExec.run`: final engine state together with the returned
`Stats`. -/
def run (risk_pct : ℚ) (cfg : DTConfig) (bars : List Candle) : EngineState × Stats :=
  let st := runState risk_pct cfg bars
  (st, computeStats st.trades st.equity_curve)

/-- Number of open trades held by a state (the `open_trade` slot is a
single optional, so this is 0 or 1). -/
def openCount (st : EngineState) : ℕ :=
  match st.open_trade with
  | none => 0
  | some _ => 1

/-! ## Spec-side definitions (for refinement comparisons) -/

/-- Running maximum-drawdown recursion as the spec words it: the running
peak is the maximum equity seen so far, and the result is the maximum of
`running_peak - current_equity` in time order. -/
def specDrawdownAux : ℚ → ℚ → List ℚ → ℚ
  | _, acc, [] => acc
  | peak, acc, e :: es => specDrawdownAux (max peak e) (max acc (max peak e - e)) es

/-- Spec drawdown: `0` on the empty curve, otherwise the running-peak
maximum drawdown seeded with the first equity value. -/
def specDrawdown : List ℚ → ℚ
  | [] => 0
  | e :: es => specDrawdownAux e 0 (e :: es)

/-- Equity after replaying a bar prefix (used to state what each equity
point carries). -/
def equityAfter (risk_pct : ℚ) (cfg : DTConfig) (bars : List Candle) : ℚ :=
  (runState risk_pct cfg bars).equity

/-- The equity curve the spec describes: one point per processed bar, in
bar order, the `i`-th carrying the `i`-th bar's time and the equity after
the first `i + 1` bars (i.e. after any close on that bar). -/
def curveSpec (risk_pct : ℚ) (cfg : DTConfig) (bars : List Candle) : List (ℕ × ℚ) :=
  (List.range bars.length).map
    (fun i => ((bars[i]?.elim 0 Candle.time),
               equityAfter risk_pct cfg (bars.take (i + 1))))

end TradingBot

namespace TradingBot

/-! ## Lemmas about the position sizer -/

/-- Rounding towards zero agrees with the floor on nonnegative inputs. -/
lemma truncQ_eq_floor (q : ℚ) (h : 0 ≤ q) : truncQ q = ⌊q⌋ := by
  simp [truncQ, h]

/-- On a nonnegative argument, `step_round` is the floor-to-step
quantization. -/
lemma step_round_eq_floor (x step : ℚ) (hx : 0 ≤ x) (hstep : 0 < step) :
    step_round x step = floor_step_round x step := by
  unfold step_round floor_step_round
  rw [truncQ_eq_floor _ (div_nonneg hx hstep.le)]

/-- Floor-to-step quantization never exceeds its argument when the step is
positive. -/
lemma floor_step_round_le (x step : ℚ) (hstep : 0 < step) :
    floor_step_round x step ≤ x := by
  unfold floor_step_round
  have h1 : ((⌊x / step⌋ : ℚ)) ≤ x / step := Int.floor_le _
  calc (⌊x / step⌋ : ℚ) * step ≤ (x / step) * step :=
        mul_le_mul_of_nonneg_right h1 hstep.le
    _ = x := div_mul_cancel₀ x (ne_of_gt hstep)

end TradingBot

namespace TradingBot

/-- C8: with `entry == stop` (zero stop distance), `compute_volume`
returns `vol_min`, regardless of equity, risk percentage and the other
volume bounds. -/
theorem C8_zero_stop_distance_returns_vol_min
    (equity entry sl risk_pct vol_min vol_step vol_max : ℚ) (h : entry = sl) :
    compute_volume equity entry sl risk_pct vol_min vol_step vol_max = vol_min := by
  subst h
  simp [compute_volume]

/-- Witness for C8 at a concrete degenerate input. -/
theorem C8_witness :
    (3 : ℚ) = 3 ∧ compute_volume 5000 3 3 2 (7/100) (1/100) 10 = 7/100 :=
  ⟨rfl, C8_zero_stop_distance_returns_vol_min 5000 3 3 2 (7/100) (1/100) 10 rfl⟩

/-- C2 counterexample: with `vol_min = -1000 ≤ vol_max = 1000`, a positive
step `100` and stop distance `1`, but a negative raw volume
(`equity = -150`, `risk_pct = 100` gives `raw = -150`), the code's
`ROUND_DOWN` (towards zero) quantization gives `-100`, while quantizing
DOWN (floor, as the claim and spec word it) then clamping gives `-200`;
moreover the code's quantized value strictly exceeds the raw volume. -/
theorem C2_counterexample :
    compute_volume (-150) 1 0 100 (-1000) 100 1000 = -100 ∧
    compute_volume_spec (-150) 1 0 100 (-1000) 100 1000 = -200 ∧
    (-150 : ℚ) < step_round ((-150) * (100 / 100) / |1 - 0|) 100 := by
  refine ⟨?_, ?_, ?_⟩ <;>
    norm_num [compute_volume, compute_volume_spec, step_round, floor_step_round,
      truncQ, min_def, max_def]

end TradingBot

namespace TradingBot

/-- C2 (amended): for every input with `vol_min ≤ vol_max`, positive
`vol_step`, nonzero stop distance, **and a nonnegative risk amount**
(`0 ≤ equity * risk_pct`, the case the spec's floor-only wording covers),
`compute_volume` returns the raw volume quantized DOWN (floor) to a
multiple of `vol_step` in exact arithmetic — so the quantized value never
exceeds the raw volume — and then clamped into `[vol_min, vol_max]`;
moreover, for the engine's volume constants
(`VOL_MIN, VOL_STEP, VOL_MAX = 0.01, 0.01, 10.0`) every trade volume lies
in `[VOL_MIN, VOL_MAX]` and is an integer multiple of `VOL_STEP`, for all
inputs whatsoever. -/
theorem C2_sizing_quantize_then_clamp
    (equity entry sl risk_pct vol_min vol_step vol_max : ℚ)
    (hmm : vol_min ≤ vol_max) (hstep : 0 < vol_step) (hstop : entry ≠ sl)
    (hraw : 0 ≤ equity * risk_pct) :
    compute_volume equity entry sl risk_pct vol_min vol_step vol_max
      = max vol_min (min vol_max
          (floor_step_round (equity * (risk_pct / 100) / |entry - sl|) vol_step)) ∧
    floor_step_round (equity * (risk_pct / 100) / |entry - sl|) vol_step
      ≤ equity * (risk_pct / 100) / |entry - sl| ∧
    vol_min ≤ compute_volume equity entry sl risk_pct vol_min vol_step vol_max ∧
    compute_volume equity entry sl risk_pct vol_min vol_step vol_max ≤ vol_max ∧
    (∀ e en s r, VOL_MIN ≤ compute_volume e en s r VOL_MIN VOL_STEP VOL_MAX ∧
       compute_volume e en s r VOL_MIN VOL_STEP VOL_MAX ≤ VOL_MAX ∧
       ∃ k : ℤ, compute_volume e en s r VOL_MIN VOL_STEP VOL_MAX = (k : ℚ) * VOL_STEP) := by
  have hd : entry - sl ≠ 0 := sub_ne_zero.mpr hstop
  have habs : ¬ (|entry - sl| = 0) := fun h => hd (abs_eq_zero.mp h)
  have habs_pos : 0 < |entry - sl| := abs_pos.mpr hd
  have hnum : 0 ≤ equity * (risk_pct / 100) := by
    rw [← mul_div_assoc]
    exact div_nonneg hraw (by norm_num)
  have hraw2 : 0 ≤ equity * (risk_pct / 100) / |entry - sl| :=
    div_nonneg hnum habs_pos.le
  have hcv : compute_volume equity entry sl risk_pct vol_min vol_step vol_max
      = max vol_min (min vol_max
          (floor_step_round (equity * (risk_pct / 100) / |entry - sl|) vol_step)) := by
    simp only [compute_volume, if_neg habs]
    rw [step_round_eq_floor _ _ hraw2 hstep]
  refine ⟨hcv, floor_step_round_le _ _ hstep, ?_, ?_, ?_⟩
  · rw [hcv]; exact le_max_left _ _
  · rw [hcv]; exact max_le hmm (min_le_left _ _)
  · intro e en s r
    by_cases h0 : |en - s| = 0
    · have hmin : compute_volume e en s r VOL_MIN VOL_STEP VOL_MAX = VOL_MIN := by
        simp only [compute_volume, if_pos h0]
      rw [hmin]
      exact ⟨le_refl _, by norm_num [VOL_MIN, VOL_MAX], 1, by norm_num [VOL_MIN, VOL_STEP]⟩
    · have hq : compute_volume e en s r VOL_MIN VOL_STEP VOL_MAX
          = max VOL_MIN (min VOL_MAX (step_round (e * (r / 100) / |en - s|) VOL_STEP)) := by
        simp only [compute_volume, if_neg h0]
      refine ⟨by rw [hq]; exact le_max_left _ _,
              by rw [hq]; exact max_le (by norm_num [VOL_MIN, VOL_MAX]) (min_le_left _ _),
              ?_⟩
      rw [hq]
      rcases le_total (min VOL_MAX (step_round (e * (r / 100) / |en - s|) VOL_STEP)) VOL_MIN
        with hc | hc
      · exact ⟨1, by rw [max_eq_left hc]; norm_num [VOL_MIN, VOL_STEP]⟩
      · rw [max_eq_right hc]
        rcases le_total VOL_MAX (step_round (e * (r / 100) / |en - s|) VOL_STEP) with hc2 | hc2
        · exact ⟨1000, by rw [min_eq_left hc2]; norm_num [VOL_MAX, VOL_STEP]⟩
        · exact ⟨truncQ (e * (r / 100) / |en - s| / VOL_STEP), by rw [min_eq_right hc2, step_round]⟩

end TradingBot

namespace TradingBot

/-- Witness for C2 at the spec's sizing example (`equity = 10000`,
`risk_pct = 1`, `entry = 1.1000`, `stop = 1.0950`): the result is `10.00`
(clamped at `vol_max`), and the floor-quantized value does not exceed the
raw volume. -/
theorem C2_witness :
    compute_volume 10000 (11/10) (219/200) 1 (1/100) (1/100) 10 = 10 ∧
    floor_step_round (10000 * ((1 : ℚ) / 100) / |(11/10 : ℚ) - 219/200|) (1/100)
      ≤ 10000 * ((1 : ℚ) / 100) / |(11/10 : ℚ) - 219/200| := by
  have h := C2_sizing_quantize_then_clamp 10000 (11/10) (219/200) 1 (1/100) (1/100) 10
    (by norm_num) (by norm_num) (by norm_num) (by norm_num)
  refine ⟨?_, h.2.1⟩
  rw [h.1]
  have habs : |(11/10 : ℚ) - 219/200| = 1/200 := by
    rw [show (11/10 : ℚ) - 219/200 = 1/200 by norm_num]
    exact abs_of_pos (by norm_num)
  rw [habs]
  norm_num [floor_step_round, min_def, max_def]

/-! ## Reduction lemmas for the engine step -/

/-- Opening step: a signal with no open position opens a trade and appends
one equity point at the unchanged equity (the loop `continue`s before any
touch test). -/
lemma stepBar_open (r : ℚ) (st : EngineState) (bar : Candle) (s : Signal)
    (h : st.open_trade = none) :
    stepBar r st bar (some s) =
      { st with open_trade := some (openTradeOf r st bar s),
                equity_curve := st.equity_curve ++ [(bar.time, st.equity)] } := by
  simp [stepBar, h]

/-- Idle step: no signal and no open position only appends an equity
point. -/
lemma stepBar_idle (r : ℚ) (st : EngineState) (bar : Candle)
    (h : st.open_trade = none) :
    stepBar r st bar none =
      { st with equity_curve := st.equity_curve ++ [(bar.time, st.equity)] } := by
  simp [stepBar, h]

/-- Position-open step: with a position open the signal is irrelevant; the
touch conditions decide between closing at the triggered level
(stop-loss priority) and holding. -/
lemma stepBar_some (r : ℚ) (st : EngineState) (bar : Candle) (sig : Option Signal)
    (t : Trade) (h : st.open_trade = some t) :
    stepBar r st bar sig =
      if hitSL t bar || hitTP t bar then
        { equity := st.equity +
            ((if hitSL t bar then t.sl_price else t.tp_price) - t.entry_price) *
              sideSign t.side * t.volume * 100000,
          trades := st.trades ++ [{ t with
                                    exit_time := some bar.time,
                                    exit_price :=
                                      some (if hitSL t bar then t.sl_price else t.tp_price) }],
          open_trade := none,
          equity_curve := st.equity_curve ++ [(bar.time, st.equity +
            ((if hitSL t bar then t.sl_price else t.tp_price) - t.entry_price) *
              sideSign t.side * t.volume * 100000)] }
      else { st with equity_curve := st.equity_curve ++ [(bar.time, st.equity)] } := by
  cases sig <;> simp [stepBar, h]

end TradingBot

namespace TradingBot

/-- C1: with a trade open, the touch conditions are exactly the claimed
inequalities (mirrored per side); when both levels are touched on a bar
the trade closes with `exit_price` exactly `sl_price` (stop-loss
priority), and when exactly one level is touched it closes at exactly
that triggered level — never an improved price. -/
theorem C1_stop_loss_priority_exact_fill
    (r : ℚ) (st : EngineState) (bar : Candle) (sig : Option Signal) (t : Trade)
    (hopen : st.open_trade = some t) :
    ((t.side = Side.long →
        ((hitSL t bar = true) ↔ bar.low ≤ t.sl_price) ∧
        ((hitTP t bar = true) ↔ t.tp_price ≤ bar.high)) ∧
     (t.side = Side.short →
        ((hitSL t bar = true) ↔ t.sl_price ≤ bar.high) ∧
        ((hitTP t bar = true) ↔ bar.low ≤ t.tp_price))) ∧
    (hitSL t bar = true → hitTP t bar = true →
      (stepBar r st bar sig).trades
        = st.trades ++ [{ t with
                          exit_time := some bar.time,
                          exit_price := some t.sl_price }] ∧
      (stepBar r st bar sig).open_trade = none) ∧
    (hitSL t bar = true → hitTP t bar = false →
      (stepBar r st bar sig).trades
        = st.trades ++ [{ t with
                          exit_time := some bar.time,
                          exit_price := some t.sl_price }] ∧
      (stepBar r st bar sig).open_trade = none) ∧
    (hitSL t bar = false → hitTP t bar = true →
      (stepBar r st bar sig).trades
        = st.trades ++ [{ t with
                          exit_time := some bar.time,
                          exit_price := some t.tp_price }] ∧
      (stepBar r st bar sig).open_trade = none) := by
  refine ⟨⟨?_, ?_⟩, ?_, ?_, ?_⟩
  · intro hs
    simp [hitSL, hitTP, hs]
  · intro hs
    simp [hitSL, hitTP, hs]
  · intro h1 h2
    rw [stepBar_some r st bar sig t hopen]
    simp [h1, h2]
  · intro h1 h2
    rw [stepBar_some r st bar sig t hopen]
    simp [h1, h2]
  · intro h1 h2
    rw [stepBar_some r st bar sig t hopen]
    simp [h1, h2]

end TradingBot

namespace TradingBot

/-- Witness for C1 at the spec's tie-break example: an open long with
`sl = 1.0950`, `tp = 1.1050`, and a bar with `low = 1.0940`,
`high = 1.1060` (both levels touched) closes at exactly `1.0950`. -/
theorem C1_witness :
    (EngineState.mk 10000 []
        (some ⟨0, none, Side.long, 11/10, none, 1, 219/200, 221/200⟩) []).open_trade
      = some ⟨0, none, Side.long, 11/10, none, 1, 219/200, 221/200⟩ ∧
    hitSL ⟨0, none, Side.long, 11/10, none, 1, 219/200, 221/200⟩
        ⟨1, 11/10, 553/500, 547/500, 11/10, 0⟩ = true ∧
    hitTP ⟨0, none, Side.long, 11/10, none, 1, 219/200, 221/200⟩
        ⟨1, 11/10, 553/500, 547/500, 11/10, 0⟩ = true ∧
    (stepBar 1 (EngineState.mk 10000 []
        (some ⟨0, none, Side.long, 11/10, none, 1, 219/200, 221/200⟩) [])
        ⟨1, 11/10, 553/500, 547/500, 11/10, 0⟩ none).trades
      = [⟨0, some 1, Side.long, 11/10, some (219/200), 1, 219/200, 221/200⟩] := by
  have hsl : hitSL ⟨0, none, Side.long, 11/10, none, 1, 219/200, 221/200⟩
      ⟨1, 11/10, 553/500, 547/500, 11/10, 0⟩ = true := by
    simp only [hitSL, decide_eq_true_eq]
    norm_num
  have htp : hitTP ⟨0, none, Side.long, 11/10, none, 1, 219/200, 221/200⟩
      ⟨1, 11/10, 553/500, 547/500, 11/10, 0⟩ = true := by
    simp only [hitTP, ge_iff_le, decide_eq_true_eq]
    norm_num
  refine ⟨rfl, hsl, htp, ?_⟩
  exact ((C1_stop_loss_priority_exact_fill 1 _ _ none _ rfl).2.1 hsl htp).1

/-- C9: the engine performs at most one transition per bar — on the bar
where a trade is opened the touch conditions are not tested (the new
trade stays open, nothing is closed and equity is untouched, whatever the
bar's high/low), and on a bar where the open trade's touch conditions
fire the position closes and no new trade is opened even if a signal
fired on that same bar. -/
theorem C9_one_transition_per_bar (r : ℚ) (st : EngineState) (bar : Candle) :
    (∀ s : Signal, st.open_trade = none →
       (stepBar r st bar (some s)).open_trade = some (openTradeOf r st bar s) ∧
       (stepBar r st bar (some s)).trades = st.trades ∧
       (stepBar r st bar (some s)).equity = st.equity) ∧
    (∀ (t : Trade) (sig : Option Signal), st.open_trade = some t →
       (hitSL t bar || hitTP t bar) = true →
       (stepBar r st bar sig).open_trade = none) := by
  constructor
  · intro s h
    rw [stepBar_open r st bar s h]
    exact ⟨rfl, rfl, rfl⟩
  · intro t sig h hhit
    rw [stepBar_some r st bar sig t h]
    simp [hhit]

/-- Witness for C9: opening on a bar that already touches the new trade's
stop level leaves the trade open (no same-bar touch test), and a touched
open trade closes even when a signal arrives on the same bar. -/
theorem C9_witness :
    ((stepBar 1 (EngineState.mk 10000 [] none [])
        ⟨0, 11/10, 553/500, 1, 11/10, 0⟩
        (some ⟨Side.long, 219/200, 221/200⟩)).open_trade
      = some (openTradeOf 1 (EngineState.mk 10000 [] none [])
          ⟨0, 11/10, 553/500, 1, 11/10, 0⟩ ⟨Side.long, 219/200, 221/200⟩) ∧
     (stepBar 1 (EngineState.mk 10000 [] none [])
        ⟨0, 11/10, 553/500, 1, 11/10, 0⟩
        (some ⟨Side.long, 219/200, 221/200⟩)).trades = [] ∧
     (stepBar 1 (EngineState.mk 10000 [] none [])
        ⟨0, 11/10, 553/500, 1, 11/10, 0⟩
        (some ⟨Side.long, 219/200, 221/200⟩)).equity = 10000) ∧
    (stepBar 1 (EngineState.mk 10000 []
        (some ⟨0, none, Side.long, 11/10, none, 1, 219/200, 221/200⟩) [])
        ⟨1, 11/10, 553/500, 547/500, 11/10, 0⟩
        (some ⟨Side.long, 219/200, 221/200⟩)).open_trade = none := by
  have h := C9_one_transition_per_bar 1 (EngineState.mk 10000 [] none [])
    ⟨0, 11/10, 553/500, 1, 11/10, 0⟩
  have h2 := C9_one_transition_per_bar 1 (EngineState.mk 10000 []
    (some ⟨0, none, Side.long, 11/10, none, 1, 219/200, 221/200⟩) [])
    ⟨1, 11/10, 553/500, 547/500, 11/10, 0⟩
  refine ⟨h.1 ⟨Side.long, 219/200, 221/200⟩ rfl, ?_⟩
  refine h2.2 _ _ rfl ?_
  have hsl : hitSL ⟨0, none, Side.long, 11/10, none, 1, 219/200, 221/200⟩
      ⟨1, 11/10, 553/500, 547/500, 11/10, 0⟩ = true := by
    simp only [hitSL, decide_eq_true_eq]
    norm_num
  simp [hsl]

/-- C4: for every prefix of any bar sequence at most one trade is open
(the `open_trade` slot), and a signal arriving while a position is open
changes nothing: the step is identical to a no-signal step, and the open
trade is either still the same trade or was closed by its own touch
conditions — never replaced. -/
theorem C4_single_open_position (r : ℚ) (cfg : DTConfig) (bars : List Candle) (n : ℕ) :
    openCount (runState r cfg (bars.take n)) ≤ 1 ∧
    (∀ (st : EngineState) (bar : Candle) (s : Signal) (t : Trade),
       st.open_trade = some t →
       stepBar r st bar (some s) = stepBar r st bar none ∧
       ((stepBar r st bar (some s)).open_trade = some t ∨
        (stepBar r st bar (some s)).open_trade = none)) := by
  constructor
  · rcases h : (runState r cfg (bars.take n)).open_trade with _ | t <;> simp [openCount, h]
  · intro st bar s t h
    constructor
    · rw [stepBar_some r st bar (some s) t h, stepBar_some r st bar none t h]
    · rw [stepBar_some r st bar (some s) t h]
      cases hcond : (hitSL t bar || hitTP t bar)
      · left
        simp [hcond, h]
      · right
        simp [hcond]

/-- Witness for C4 at a concrete state: a signal while a long position is
open produces the same step as no signal, and the position is unchanged
on a bar touching neither level. -/
theorem C4_witness :
    openCount (runState 1 ⟨3, 40, 10, 2⟩ ([].take 0)) ≤ 1 ∧
    (stepBar 1 (EngineState.mk 10000 []
        (some ⟨0, none, Side.long, 11/10, none, 1, 219/200, 221/200⟩) [])
        ⟨1, 11/10, 2207/2000, 2199/2000, 11/10, 0⟩
        (some ⟨Side.short, 3, 1⟩))
      = (stepBar 1 (EngineState.mk 10000 []
          (some ⟨0, none, Side.long, 11/10, none, 1, 219/200, 221/200⟩) [])
          ⟨1, 11/10, 2207/2000, 2199/2000, 11/10, 0⟩ none) := by
  have h := C4_single_open_position 1 ⟨3, 40, 10, 2⟩ [] 0
  refine ⟨h.1, ?_⟩
  exact (h.2 (EngineState.mk 10000 []
    (some ⟨0, none, Side.long, 11/10, none, 1, 219/200, 221/200⟩) [])
    ⟨1, 11/10, 2207/2000, 2199/2000, 11/10, 0⟩ ⟨Side.short, 3, 1⟩ _ rfl).1

end TradingBot

namespace TradingBot

/-! ## Run-level lemmas -/

/-- Every step appends exactly one equity point, carrying the bar's time
and the equity after the step (i.e. after any close on that bar). -/
lemma stepBar_curve (r : ℚ) (st : EngineState) (bar : Candle) (sig : Option Signal) :
    (stepBar r st bar sig).equity_curve
      = st.equity_curve ++ [(bar.time, (stepBar r st bar sig).equity)] := by
  rcases h : st.open_trade with _ | t
  · cases sig
    · rw [stepBar_idle r st bar h]
    · rw [stepBar_open r st bar _ h]
  · rw [stepBar_some r st bar sig t h]
    cases hcond : (hitSL t bar || hitTP t bar) <;> simp [hcond]

/-- A step either closes nothing (trades and equity unchanged) or closes
exactly one trade, adding its recomputed pnl to equity. -/
lemma stepBar_trades_equity (r : ℚ) (st : EngineState) (bar : Candle) (sig : Option Signal) :
    ((stepBar r st bar sig).trades = st.trades ∧
     (stepBar r st bar sig).equity = st.equity) ∨
    (∃ t2, (stepBar r st bar sig).trades = st.trades ++ [t2] ∧
       (stepBar r st bar sig).equity = st.equity + tradePnl t2) := by
  rcases h : st.open_trade with _ | t
  · cases sig
    · left
      rw [stepBar_idle r st bar h]
      exact ⟨rfl, rfl⟩
    · left
      rw [stepBar_open r st bar _ h]
      exact ⟨rfl, rfl⟩
  · rw [stepBar_some r st bar sig t h]
    cases hcond : (hitSL t bar || hitTP t bar)
    · left
      simp [hcond]
    · right
      refine ⟨{ t with
                exit_time := some bar.time,
                exit_price := some (if hitSL t bar then t.sl_price else t.tp_price) }, ?_, ?_⟩
      · simp [hcond]
      · simp [hcond, tradePnl]

/-- The replay loop splits along an append of bar lists. -/
lemma runAux_append (r : ℚ) (cfg : DTConfig) (l1 l2 : List Candle)
    (p : List Candle × EngineState) :
    runAux r cfg (l1 ++ l2) p = runAux r cfg l2 (runAux r cfg l1 p) := by
  induction l1 generalizing p with
  | nil => rfl
  | cons b l1 ih =>
    rcases p with ⟨w, st⟩
    simp only [List.cons_append, runAux]
    exact ih _

/-- Unfolding the replay of `bars ++ [b]`: replay `bars`, then one step. -/
lemma runState_concat (r : ℚ) (cfg : DTConfig) (bs : List Candle) (b : Candle) :
    runState r cfg (bs ++ [b])
      = stepBar r (runAux r cfg bs ([], initState)).2 b
          (on_bar cfg (runAux r cfg bs ([], initState)).1 b 5).2 := by
  unfold runState
  rw [runAux_append]
  rcases h : runAux r cfg bs ([], initState) with ⟨w, st⟩
  simp [runAux, h]

/-- The closed-trade list only grows along the replay. -/
lemma runAux_trades_ext (r : ℚ) (cfg : DTConfig) (bars : List Candle) :
    ∀ (w : List Candle) (st : EngineState),
      ∃ ext, (runAux r cfg bars (w, st)).2.trades = st.trades ++ ext := by
  induction bars with
  | nil =>
    intro w st
    exact ⟨[], by simp [runAux]⟩
  | cons b bs ih =>
    intro w st
    obtain ⟨ext, hext⟩ := ih (on_bar cfg w b 5).1 (stepBar r st b (on_bar cfg w b 5).2)
    rcases stepBar_trades_equity r st b (on_bar cfg w b 5).2 with ⟨h1, _⟩ | ⟨t2, h1, _⟩
    · exact ⟨ext, by simp only [runAux]; rw [hext, h1]⟩
    · refine ⟨t2 :: ext, ?_⟩
      simp only [runAux]
      rw [hext, h1, List.append_assoc, List.singleton_append]

/-- Replay invariant: equity minus the recomputed pnl of the closed trades
is constant (equity is exactly the accumulated closed pnl). -/
lemma runAux_equity_sum (r : ℚ) (cfg : DTConfig) (bars : List Candle) :
    ∀ (w : List Candle) (st : EngineState),
      (runAux r cfg bars (w, st)).2.equity
          - (((runAux r cfg bars (w, st)).2.trades).map tradePnl).sum
        = st.equity - ((st.trades.map tradePnl).sum) := by
  induction bars with
  | nil =>
    intro w st
    simp [runAux]
  | cons b bs ih =>
    intro w st
    have h2 := ih (on_bar cfg w b 5).1 (stepBar r st b (on_bar cfg w b 5).2)
    simp only [runAux]
    rw [h2]
    rcases stepBar_trades_equity r st b (on_bar cfg w b 5).2 with ⟨h1, he⟩ | ⟨t2, h1, he⟩
    · rw [h1, he]
    · rw [h1, he]
      simp [List.sum_append]

/-- The final equity equals the initial 10000 plus the sum of recomputed
per-trade pnls of the closed trades. -/
lemma runState_equity_eq (r : ℚ) (cfg : DTConfig) (bars : List Candle) :
    (runState r cfg bars).equity
      = 10000 + (((runState r cfg bars).trades).map tradePnl).sum := by
  have h := runAux_equity_sum r cfg bars [] initState
  unfold runState
  have : (initState.equity - ((initState.trades.map tradePnl).sum)) = 10000 := by
    simp [initState]
  rw [this] at h
  linarith [h]

end TradingBot

namespace TradingBot

/-- With no position open, a step never changes equity (a close is the
only equity change, and nothing can close). -/
lemma stepBar_equity_none (r : ℚ) (st : EngineState) (bar : Candle) (sig : Option Signal)
    (h : st.open_trade = none) :
    (stepBar r st bar sig).equity = st.equity := by
  cases sig
  · rw [stepBar_idle r st bar h]
  · rw [stepBar_open r st bar _ h]

/-- Equity after a one-bar replay is still the initial 10000 (nothing can
close on the first bar). -/
lemma equityAfter_single (r : ℚ) (cfg : DTConfig) (b : Candle) :
    equityAfter r cfg [b] = 10000 := by
  unfold equityAfter runState
  simp only [runAux]
  exact stepBar_equity_none r initState b _ rfl

/-- Appending one bar extends the spec curve by exactly the new bar's
point. -/
lemma curveSpec_concat (r : ℚ) (cfg : DTConfig) (bs : List Candle) (b : Candle) :
    curveSpec r cfg (bs ++ [b])
      = curveSpec r cfg bs ++ [(b.time, equityAfter r cfg (bs ++ [b]))] := by
  unfold curveSpec
  rw [List.length_append, List.length_singleton, List.range_succ, List.map_append]
  congr 1
  · apply List.map_congr_left
    intro i hi
    rw [List.mem_range] at hi
    rw [List.getElem?_append_left hi, List.take_append_of_le_length hi]
  · simp only [List.map_cons, List.map_nil]
    have h1 : (bs ++ [b])[bs.length]? = some b := by
      rw [List.getElem?_append_right (le_refl _)]
      simp
    have h2 : (bs ++ [b]).take (bs.length + 1) = bs ++ [b] := by
      have hlen : (bs ++ [b]).length = bs.length + 1 := by simp
      rw [← hlen, List.take_length]
    rw [h1, h2]
    rfl

/-- The engine's equity curve is exactly the spec curve: one point per
bar, in bar order, carrying the equity after that bar. -/
lemma curve_spec_eq (r : ℚ) (cfg : DTConfig) (bars : List Candle) :
    (runState r cfg bars).equity_curve = curveSpec r cfg bars := by
  induction bars using List.reverseRecOn with
  | nil => rfl
  | append_singleton bs b ih =>
    rw [runState_concat, stepBar_curve, curveSpec_concat]
    have heq : equityAfter r cfg (bs ++ [b])
        = (stepBar r (runAux r cfg bs ([], initState)).2 b
            (on_bar cfg (runAux r cfg bs ([], initState)).1 b 5).2).equity := by
      rw [equityAfter, runState_concat]
    rw [heq]
    congr 1

/-- The last equity point of a non-empty replay carries the final bar's
time and the final equity. -/
lemma runState_last_curve (r : ℚ) (cfg : DTConfig) (bs : List Candle) (b : Candle) :
    (runState r cfg (bs ++ [b])).equity_curve.getLast?
      = some (b.time, (runState r cfg (bs ++ [b])).equity) := by
  rw [runState_concat, stepBar_curve]
  simp

end TradingBot

namespace TradingBot

/-- C5: after processing any bar sequence the equity curve is exactly the
spec curve — one `EquityPoint` per processed bar, in bar order, the
`i`-th carrying the `i`-th bar's time and the equity after the first
`i + 1` bars (so after any close on that bar, including bars on which a
trade is opened) — and in particular its length equals the number of
bars. -/
theorem C5_one_equity_point_per_bar (r : ℚ) (cfg : DTConfig) (bars : List Candle) :
    (runState r cfg bars).equity_curve = curveSpec r cfg bars ∧
    ((runState r cfg bars).equity_curve).length = bars.length := by
  refine ⟨curve_spec_eq r cfg bars, ?_⟩
  rw [curve_spec_eq r cfg bars]
  unfold curveSpec
  simp

/-- C10: the `Stats` total pnl equals the sum of the recomputed per-trade
pnls of the closed trades, the final equity is the initial 10000 plus that
total, and on a non-empty feed the last equity point carries exactly the
final equity. -/
theorem C10_total_pnl_matches_equity (r : ℚ) (cfg : DTConfig) (bars : List Candle) :
    (run r cfg bars).2.pnl = (((run r cfg bars).1.trades).map tradePnl).sum ∧
    (run r cfg bars).1.equity = 10000 + (run r cfg bars).2.pnl ∧
    (bars ≠ [] →
      ((run r cfg bars).1.equity_curve.getLast?).map Prod.snd
        = some ((run r cfg bars).1.equity)) := by
  refine ⟨rfl, runState_equity_eq r cfg bars, ?_⟩
  intro hne
  rcases List.eq_nil_or_concat' bars with h | ⟨bs, b, h⟩
  · exact absurd h hne
  · subst h
    show ((runState r cfg (bs ++ [b])).equity_curve.getLast?).map Prod.snd
        = some ((runState r cfg (bs ++ [b])).equity)
    rw [runState_last_curve]
    rfl

/-- Witness for C10 on a one-bar feed. -/
theorem C10_witness :
    ([(⟨0, 1, 2, 1, 2, 0⟩ : Candle)] ≠ []) ∧
    ((run 1 ⟨1, 0, 10, 2⟩ [⟨0, 1, 2, 1, 2, 0⟩]).1.equity_curve.getLast?).map Prod.snd
      = some ((run 1 ⟨1, 0, 10, 2⟩ [⟨0, 1, 2, 1, 2, 0⟩]).1.equity) := by
  constructor
  · simp
  · exact (C10_total_pnl_matches_equity 1 ⟨1, 0, 10, 2⟩ [⟨0, 1, 2, 1, 2, 0⟩]).2.2 (by simp)

/-! ## Drawdown lemmas -/

/-- The drawdown fold of `BacktestExec.run` computes the running-peak
recursion from any seed. -/
lemma foldl_dd_eq_specAux (l : List ℚ) :
    ∀ (peak acc : ℚ),
      (l.foldl
        (fun pm eq =>
          let peak := if eq > pm.1 then eq else pm.1
          let dd := peak - eq
          (peak, if dd > pm.2 then dd else pm.2)) (peak, acc)).2
      = specDrawdownAux peak acc l := by
  induction l with
  | nil =>
    intro peak acc
    rfl
  | cons e es ih =>
    intro peak acc
    have hpeak : (if e > peak then e else peak) = max peak e := by
      rcases le_or_lt e peak with h | h
      · rw [if_neg (not_lt.mpr h), max_eq_left h]
      · rw [if_pos h, max_eq_right h.le]
    show (es.foldl _
        (if e > peak then e else peak,
         if (if e > peak then e else peak) - e > acc
         then (if e > peak then e else peak) - e else acc)).2
      = specDrawdownAux peak acc (e :: es)
    rw [ih]
    simp only [specDrawdownAux, hpeak]
    have hacc : (if max peak e - e > acc then max peak e - e else acc)
        = max acc (max peak e - e) := by
      rcases le_or_lt (max peak e - e) acc with h | h
      · rw [if_neg (not_lt.mpr h), max_eq_left h]
      · rw [if_pos h, max_eq_right h.le]
    rw [hacc]

/-- The code's drawdown (peak seeded at `-1e18`) agrees with the spec
drawdown whenever the first equity value is at least `-1e18`. -/
lemma maxDrawdown_eq_spec (e : ℚ) (es : List ℚ)
    (h : (-1000000000000000000 : ℚ) ≤ e) :
    maxDrawdown (e :: es) = specDrawdown (e :: es) := by
  unfold maxDrawdown specDrawdown
  rw [foldl_dd_eq_specAux]
  have h1 : max (-1000000000000000000 : ℚ) e = e := max_eq_right h
  simp only [specDrawdownAux, h1, max_self, sub_self]

end TradingBot

namespace TradingBot

/-- On a non-empty feed the equity-curve values start with 10000. -/
lemma curve_vals_head (r : ℚ) (cfg : DTConfig) (b : Candle) (bs : List Candle) :
    ∃ vs, ((runState r cfg (b :: bs)).equity_curve).map Prod.snd = 10000 :: vs := by
  rw [curve_spec_eq]
  unfold curveSpec
  rw [List.length_cons, List.range_succ_eq_map, List.map_cons, List.map_cons]
  have h0 : equityAfter r cfg (List.take (0 + 1) (b :: bs)) = 10000 := by
    simp only [zero_add, List.take_succ_cons, List.take_zero]
    exact equityAfter_single r cfg b
  exact ⟨_, by rw [h0]⟩

/-- C6: the engine's reported `max_drawdown` is exactly the running-peak
maximum drawdown of its equity curve in time order; and the spec's
examples: curve `[10000, 10200, 9900, 10500, 9800]` gives `700`, and the
empty curve gives `0`. -/
theorem C6_max_drawdown_running_peak (r : ℚ) (cfg : DTConfig) (bars : List Candle) :
    (run r cfg bars).2.max_dd
      = specDrawdown (((runState r cfg bars).equity_curve).map Prod.snd) ∧
    maxDrawdown [10000, 10200, 9900, 10500, 9800] = 700 ∧
    maxDrawdown ([] : List ℚ) = 0 := by
  refine ⟨?_, by norm_num [maxDrawdown, List.foldl], rfl⟩
  show maxDrawdown (((runState r cfg bars).equity_curve).map Prod.snd)
      = specDrawdown (((runState r cfg bars).equity_curve).map Prod.snd)
  cases bars with
  | nil => rfl
  | cons b bs =>
    obtain ⟨vs, hvs⟩ := curve_vals_head r cfg b bs
    rw [hvs]
    exact maxDrawdown_eq_spec 10000 vs (by norm_num)

/-- Replaying a prefix closes a prefix of the closed trades: if the full
run closes none, neither does any prefix. -/
lemma prefix_trades_nil (r : ℚ) (cfg : DTConfig) (bars : List Candle) (n : ℕ)
    (h : (runState r cfg bars).trades = []) :
    (runState r cfg (bars.take n)).trades = [] := by
  obtain ⟨ext, hext⟩ := runAux_trades_ext r cfg (bars.drop n)
    (runAux r cfg (bars.take n) ([], initState)).1
    (runAux r cfg (bars.take n) ([], initState)).2
  have hb : (runAux r cfg bars ([], initState)).2.trades
      = (runAux r cfg (bars.take n) ([], initState)).2.trades ++ ext := by
    conv_lhs => rw [← List.take_append_drop n bars]
    rw [runAux_append]
    exact hext
  unfold runState at h ⊢
  rw [hb] at h
  exact (List.append_eq_nil.mp h).1

/-- If the run closes no trade, the equity after every prefix is still
10000. -/
lemma equityAfter_of_no_trades (r : ℚ) (cfg : DTConfig) (bars : List Candle) (n : ℕ)
    (h : (runState r cfg bars).trades = []) :
    equityAfter r cfg (bars.take n) = 10000 := by
  unfold equityAfter
  rw [runState_equity_eq, prefix_trades_nil r cfg bars n h]
  simp

/-- If the run closes no trade, every equity-curve value is 10000. -/
lemma curve_vals_const (r : ℚ) (cfg : DTConfig) (bars : List Candle)
    (h : (runState r cfg bars).trades = []) :
    ∀ x ∈ ((runState r cfg bars).equity_curve).map Prod.snd, x = 10000 := by
  rw [curve_spec_eq]
  unfold curveSpec
  intro x hx
  simp only [List.map_map, List.mem_map, List.mem_range, Function.comp] at hx
  obtain ⟨i, _, rfl⟩ := hx
  exact equityAfter_of_no_trades r cfg bars (i + 1) h

/-- The spec drawdown recursion stays at zero on a constant list. -/
lemma specDrawdownAux_const (v : ℚ) :
    ∀ (l : List ℚ), (∀ x ∈ l, x = v) → specDrawdownAux v 0 l = 0 := by
  intro l
  induction l with
  | nil =>
    intro _
    rfl
  | cons e es ih =>
    intro h
    have he : e = v := h e (List.mem_cons_self e es)
    subst he
    simp only [specDrawdownAux, max_self, sub_self]
    exact ih (fun x hx => h x (List.mem_cons_of_mem _ hx))

/-- The code's drawdown is zero on a curve whose values are all 10000. -/
lemma maxDrawdown_const (l : List ℚ) (h : ∀ x ∈ l, x = 10000) :
    maxDrawdown l = 0 := by
  cases l with
  | nil => rfl
  | cons e es =>
    have he : e = 10000 := h e (List.mem_cons_self _ _)
    subst he
    rw [maxDrawdown_eq_spec 10000 es (by norm_num)]
    show specDrawdownAux 10000 0 (10000 :: es) = 0
    exact specDrawdownAux_const 10000 (10000 :: es) h

/-- C7: a run whose closed-trade list is empty — in particular a run over
the empty bar feed — returns the zeroed `Stats`
(`n_trades = 0`, `win_rate = 0`, `total_pnl = 0`, `max_drawdown = 0`,
`expectancy = 0`); the zero-trade divisions are guarded, so no division
by zero occurs. -/
theorem C7_zero_trades_zeroed_stats (r : ℚ) (cfg : DTConfig) (bars : List Candle)
    (h : (runState r cfg bars).trades = []) :
    (run r cfg bars).2 = ⟨0, 0, 0, 0, 0⟩ := by
  have hmax : maxDrawdown (((runState r cfg bars).equity_curve).map Prod.snd) = 0 :=
    maxDrawdown_const _ (curve_vals_const r cfg bars h)
  show computeStats (runState r cfg bars).trades (runState r cfg bars).equity_curve
      = ⟨0, 0, 0, 0, 0⟩
  rw [h]
  unfold computeStats
  simp [hmax]

/-- Witness for C7 on the empty feed. -/
theorem C7_witness :
    (runState 1 ⟨3, 40, 10, 2⟩ []).trades = [] ∧
    (run 1 ⟨3, 40, 10, 2⟩ []).2 = ⟨0, 0, 0, 0, 0⟩ :=
  ⟨rfl, C7_zero_trades_zeroed_stats 1 ⟨3, 40, 10, 2⟩ [] rfl⟩

end TradingBot

namespace TradingBot

/-! ## Signal-generator lemmas -/

/-- Pushing into the deque gives length `min (old + 1) maxlen`. -/
lemma pushWindow_length (m : ℕ) (w : List Candle) (b : Candle) :
    (pushWindow m w b).length = min (w.length + 1) m := by
  unfold pushWindow
  simp only [List.length_drop, List.length_append, List.length_cons, List.length_nil]
  omega

/-- The last window element after a push is the pushed bar, as long as the
capacity is at least one. -/
lemma lastClose_pushWindow (m : ℕ) (w : List Candle) (b : Candle) (hm : 1 ≤ m) :
    lastClose (pushWindow m w b) = b.close := by
  unfold lastClose pushWindow
  have hk : (w ++ [b]).length - m ≤ w.length := by
    simp only [List.length_append, List.length_cons, List.length_nil]
    omega
  rw [List.drop_append_of_le_length hk]
  simp

/-- The pip size is positive for every digit count. -/
lemma pip_pos (digits : ℕ) : 0 < pip digits := by
  unfold pip
  split <;> norm_num

/-- The window returned by `on_bar` is the pushed window, in every
branch. -/
lemma on_bar_fst (cfg : DTConfig) (w : List Candle) (bar : Candle) (digits : ℕ) :
    (on_bar cfg w bar digits).1 = pushWindow cfg.maxlen w bar := by
  simp only [on_bar]
  split
  · rfl
  · split
    · rfl
    · split
      · rfl
      · split <;> rfl

/-- While the window is not yet full, `on_bar` emits no signal along the
stream: the `i`-th emitted value is `none` whenever the initial window
length plus `i + 1` is still below the capacity. -/
lemma signalsAux_warmup (cfg : DTConfig) :
    ∀ (bs : List Candle) (w : List Candle) (i : ℕ),
      i < bs.length → w.length + i + 1 < cfg.maxlen →
      (signalsAux cfg w bs)[i]? = some none := by
  intro bs
  induction bs with
  | nil =>
    intro w i hi _
    simp at hi
  | cons b bs2 ih =>
    intro w i hi hlen
    cases i with
    | zero =>
      have hw : (pushWindow cfg.maxlen w b).length < cfg.maxlen := by
        rw [pushWindow_length]
        omega
      have hsig : (on_bar cfg w b 5).2 = none := by
        unfold on_bar
        rw [if_pos hw]
      simp [signalsAux, hsig]
    | succ j =>
      have hw2 : (on_bar cfg w b 5).1.length ≤ w.length + 1 := by
        rw [on_bar_fst, pushWindow_length]
        omega
      show (signalsAux cfg w (b :: bs2))[j+1]? = some none
      rw [signalsAux, List.getElem?_cons_succ]
      apply ih
      · exact Nat.lt_of_succ_lt_succ hi
      · omega

/-- Once the window is full, `on_bar` reduces to the distance check
followed by the breakout cascade on the bar's close. -/
lemma on_bar_full_reduce (cfg : DTConfig) (w : List Candle) (bar : Candle) (digits : ℕ)
    (hfull : ¬ ((pushWindow cfg.maxlen w bar).length < cfg.maxlen)) :
    (on_bar cfg w bar digits).2 =
      if (maxHigh (pushWindow cfg.maxlen w bar) - minLow (pushWindow cfg.maxlen w bar))
           / pip digits < cfg.distance_pips then none
      else if bar.close ≥ maxHigh (pushWindow cfg.maxlen w bar) then
        some ⟨Side.long, bar.close - cfg.sl_pips * pip digits,
              bar.close + cfg.sl_pips * cfg.tp_rr * pip digits⟩
      else if bar.close ≤ minLow (pushWindow cfg.maxlen w bar) then
        some ⟨Side.short, bar.close + cfg.sl_pips * pip digits,
              bar.close - cfg.sl_pips * cfg.tp_rr * pip digits⟩
      else none := by
  have hlast : lastClose (pushWindow cfg.maxlen w bar) = bar.close :=
    lastClose_pushWindow cfg.maxlen w bar (le_max_left 1 cfg.window_minutes)
  simp only [on_bar]
  rw [if_neg hfull, hlast]
  split
  · rfl
  · split
    · rfl
    · split <;> rfl

end TradingBot

namespace TradingBot

/-- C3: no signal is emitted while the window is not yet full (the first
`N - 1` bars, `N` the deque capacity); once full, no signal when the
window range in pips is below the distance threshold; otherwise a long
signal is emitted iff the latest close is at least the window high (with
`sl = close - sl_pips·pip` and `tp = close + sl_pips·tp_rr·pip`), a short
signal iff the latest close is at most the window low (mirrored prices),
and no signal otherwise; the pip size is `0.01` for `digits ∈ {1,2,3}`
and `0.0001` otherwise.  (The distance threshold is assumed positive, as
the configuration loader guarantees.) -/
theorem C3_breakout_signal_generation (cfg : DTConfig) (hdist : 0 < cfg.distance_pips) :
    (∀ (bars : List Candle) (i : ℕ), i < bars.length → i + 1 < cfg.maxlen →
       (signalsOf cfg bars)[i]? = some none) ∧
    (∀ (w : List Candle) (bar : Candle) (digits : ℕ),
       (pushWindow cfg.maxlen w bar).length = cfg.maxlen →
       (((maxHigh (pushWindow cfg.maxlen w bar) - minLow (pushWindow cfg.maxlen w bar))
            / pip digits < cfg.distance_pips → (on_bar cfg w bar digits).2 = none) ∧
        (cfg.distance_pips ≤
            (maxHigh (pushWindow cfg.maxlen w bar) - minLow (pushWindow cfg.maxlen w bar))
              / pip digits →
         (((on_bar cfg w bar digits).2
             = some ⟨Side.long, bar.close - cfg.sl_pips * pip digits,
                     bar.close + cfg.sl_pips * cfg.tp_rr * pip digits⟩)
           ↔ maxHigh (pushWindow cfg.maxlen w bar) ≤ bar.close) ∧
         (((on_bar cfg w bar digits).2
             = some ⟨Side.short, bar.close + cfg.sl_pips * pip digits,
                     bar.close - cfg.sl_pips * cfg.tp_rr * pip digits⟩)
           ↔ bar.close ≤ minLow (pushWindow cfg.maxlen w bar)) ∧
         (((on_bar cfg w bar digits).2 = none)
           ↔ minLow (pushWindow cfg.maxlen w bar) < bar.close ∧
             bar.close < maxHigh (pushWindow cfg.maxlen w bar))))) ∧
    (∀ digits : ℕ,
       ((digits = 1 ∨ digits = 2 ∨ digits = 3) → pip digits = 1/100) ∧
       (¬(digits = 1 ∨ digits = 2 ∨ digits = 3) → pip digits = 1/10000)) := by
  refine ⟨?_, ?_, ?_⟩
  · intro bars i hi hlen
    exact signalsAux_warmup cfg bars [] i hi (by simpa using hlen)
  · intro w bar digits hfull
    have hnl : ¬ ((pushWindow cfg.maxlen w bar).length < cfg.maxlen) := by
      rw [hfull]
      exact lt_irrefl _
    have hred := on_bar_full_reduce cfg w bar digits hnl
    constructor
    · intro hlt
      rw [hred, if_pos hlt]
    · intro hge
      have hnlt : ¬ ((maxHigh (pushWindow cfg.maxlen w bar)
          - minLow (pushWindow cfg.maxlen w bar)) / pip digits < cfg.distance_pips) :=
        not_lt.mpr hge
      rw [hred, if_neg hnlt]
      have hp := pip_pos digits
      have hilo : minLow (pushWindow cfg.maxlen w bar)
          < maxHigh (pushWindow cfg.maxlen w bar) := by
        have h1 : 0 < (maxHigh (pushWindow cfg.maxlen w bar)
            - minLow (pushWindow cfg.maxlen w bar)) / pip digits :=
          lt_of_lt_of_le hdist hge
        have h2 : 0 < maxHigh (pushWindow cfg.maxlen w bar)
            - minLow (pushWindow cfg.maxlen w bar) := by
          by_contra hc
          push_neg at hc
          have h3 : (maxHigh (pushWindow cfg.maxlen w bar)
              - minLow (pushWindow cfg.maxlen w bar)) / pip digits ≤ 0 :=
            div_nonpos_iff.mpr (Or.inr ⟨hc, hp.le⟩)
          linarith
        linarith
      refine ⟨?_, ?_, ?_⟩
      · constructor
        · intro hout
          by_cases hc1 : bar.close ≥ maxHigh (pushWindow cfg.maxlen w bar)
          · exact hc1
          · exfalso
            rw [if_neg hc1] at hout
            by_cases hc2 : bar.close ≤ minLow (pushWindow cfg.maxlen w bar)
            · rw [if_pos hc2] at hout
              simp at hout
            · rw [if_neg hc2] at hout
              simp at hout
        · intro hge2
          rw [if_pos hge2]
      · constructor
        · intro hout
          by_cases hc1 : bar.close ≥ maxHigh (pushWindow cfg.maxlen w bar)
          · rw [if_pos hc1] at hout
            simp at hout
          · rw [if_neg hc1] at hout
            by_cases hc2 : bar.close ≤ minLow (pushWindow cfg.maxlen w bar)
            · exact hc2
            · rw [if_neg hc2] at hout
              simp at hout
        · intro hle
          have hc1 : ¬ (bar.close ≥ maxHigh (pushWindow cfg.maxlen w bar)) := by
            intro hc
            have h4 : maxHigh (pushWindow cfg.maxlen w bar)
                ≤ minLow (pushWindow cfg.maxlen w bar) := le_trans hc hle
            linarith
          rw [if_neg hc1, if_pos hle]
      · constructor
        · intro hout
          by_cases hc1 : bar.close ≥ maxHigh (pushWindow cfg.maxlen w bar)
          · rw [if_pos hc1] at hout
            simp at hout
          · by_cases hc2 : bar.close ≤ minLow (pushWindow cfg.maxlen w bar)
            · rw [if_neg hc1, if_pos hc2] at hout
              simp at hout
            · push_neg at hc1 hc2
              exact ⟨hc2, hc1⟩
        · rintro ⟨h1, h2⟩
          have hc1 : ¬ (bar.close ≥ maxHigh (pushWindow cfg.maxlen w bar)) := not_le.mpr h2
          have hc2 : ¬ (bar.close ≤ minLow (pushWindow cfg.maxlen w bar)) := not_le.mpr h1
          rw [if_neg hc1, if_neg hc2]
  · intro digits
    constructor
    · intro h
      unfold pip
      rw [if_pos h]
    · intro h
      unfold pip
      rw [if_neg h]

end TradingBot

namespace TradingBot

/-- Witness for C3: with a 3-bar window the first emitted value is `none`
(warm-up), and with a full 1-bar window a close at the window high emits
a long signal priced at `close ∓ sl_pips·pip` / `close + sl_pips·tp_rr·pip`. -/
theorem C3_witness :
    (0 : ℚ) < 40 ∧
    (signalsOf ⟨3, 40, 10, 2⟩
        [⟨0, 1, 2, 1, 2, 0⟩, ⟨1, 1, 2, 1, 2, 0⟩])[0]? = some none ∧
    (0 : ℚ) < 1 ∧
    (on_bar ⟨1, 1, 10, 2⟩ [] ⟨0, 1, 2, 1, 2, 0⟩ 5).2
      = some ⟨Side.long, 1999/1000, 1001/500⟩ := by
  refine ⟨by norm_num, ?_, by norm_num, ?_⟩
  · exact (C3_breakout_signal_generation ⟨3, 40, 10, 2⟩ (by norm_num)).1
      [⟨0, 1, 2, 1, 2, 0⟩, ⟨1, 1, 2, 1, 2, 0⟩] 0 (by norm_num) (by decide)
  · have hfull : (pushWindow (DTConfig.maxlen ⟨1, 1, 10, 2⟩) []
        ⟨0, 1, 2, 1, 2, 0⟩).length = DTConfig.maxlen ⟨1, 1, 10, 2⟩ := by decide
    have hb := ((C3_breakout_signal_generation ⟨1, 1, 10, 2⟩ (by norm_num)).2.1
      [] ⟨0, 1, 2, 1, 2, 0⟩ 5 hfull).2
    have hge : (⟨1, 1, 10, 2⟩ : DTConfig).distance_pips ≤
        (maxHigh (pushWindow (DTConfig.maxlen ⟨1, 1, 10, 2⟩) [] ⟨0, 1, 2, 1, 2, 0⟩)
          - minLow (pushWindow (DTConfig.maxlen ⟨1, 1, 10, 2⟩) [] ⟨0, 1, 2, 1, 2, 0⟩))
          / pip 5 := by
      show (1 : ℚ) ≤ ((2 : ℚ) - 1) / (1/10000)
      norm_num
    have hclose : maxHigh (pushWindow (DTConfig.maxlen ⟨1, 1, 10, 2⟩) []
        ⟨0, 1, 2, 1, 2, 0⟩) ≤ (⟨0, 1, 2, 1, 2, 0⟩ : Candle).close := by
      show (2 : ℚ) ≤ 2
      norm_num
    have hlong := ((hb hge).1).mpr hclose
    rw [hlong]
    norm_num [pip]

end TradingBot
